import Mathlib

/-!
Shallow embedding of the karaoke-app room-queue synchronization engine.

The socket server (two structurally identical variants in the repository)
keeps, per room, an ordered array of queue entries ("songs"); the handlers
`addSong`, `pinSong`, `reorderQueue`, `removeSong`, `songEnded`, `skipSong`
and `joinRoom` are embedded below as pure functions on Lean lists.  The
Firestore client variant orders its queue by a numeric `order` field; its
`addToQueue` key assignment and `normalizeQueue` renumbering are embedded
over exact rationals (the JavaScript doubles involved — small integers,
`+ 0.5`, `+ 1` — are exact at these magnitudes, so ℚ is faithful here).
The AI title-extraction retry helpers are embedded as functions of an
abstract provider oracle.
-/

namespace Karaoke

/-- A queue entry as stored by the socket server: the song payload fields
plus the per-insertion unique `uuid` the server attaches
(`Date.now() + Math.random().toString()`, here an opaque `Nat`). -/
structure Song where
  videoId : String
  title : String
  author : String
  thumbnail : String
  duration : String
  uuid : Nat
deriving DecidableEq, Repr

/-- `addSong` handler: `if (song.isTop && queue.length > 0) queue.splice(1, 0, item)
else queue.push(item)`.  `item` is the queue item already carrying its fresh
uuid; `isTop` is the `song.isTop` flag of the payload. -/
def addSong (queue : List Song) (item : Song) (isTop : Bool) : List Song :=
  if isTop && decide (0 < queue.length) then
    queue.take 1 ++ item :: queue.drop 1
  else
    queue ++ [item]

/-- JavaScript `Array.prototype.findIndex`, with `none` for the sentinel `-1`. -/
def findIndex (p : Song → Bool) : List Song → Option Nat
  | [] => none
  | s :: rest => if p s then some 0 else (findIndex p rest).map (· + 1)

/-- `pinSong` handler: find the entry's index; only when `songIndex > 1`,
splice it out and splice it back in at index 1, and broadcast (`true`);
in every other case (index 0, index 1, or absent) nothing happens and
nothing is emitted (`false`). -/
def pinSong (queue : List Song) (u : Nat) : List Song × Bool :=
  match findIndex (fun s => s.uuid == u) queue with
  | some i =>
    if 1 < i then
      let picked := (queue.get? i).toList
      let rest := queue.eraseIdx i
      (rest.take 1 ++ picked ++ rest.drop 1, true)
    else (queue, false)
  | none => (queue, false)

/-- `reorderQueue` handler: when both the stored queue and the proposal are
non-empty and their heads carry the same uuid, the proposal is installed and
broadcast; otherwise the handler returns without touching the queue and
without emitting anything.  The second component is the broadcast payload
(`none` = no emission at all). -/
def reorderQueue (queue newQueue : List Song) : List Song × Option (List Song) :=
  match queue, newQueue with
  | q0 :: _, n0 :: _ =>
    if q0.uuid == n0.uuid then (newQueue, some newQueue) else (queue, none)
  | _, _ => (queue, none)

/-- `removeSong` handler: `rooms[roomId].filter(song => song.uuid !== uuid)`. -/
def removeSong (queue : List Song) (u : Nat) : List Song :=
  queue.filter (fun s => s.uuid != u)

/-- `songEnded` handler: `if (queue.length > 0) queue.shift()`. -/
def songEnded (queue : List Song) : List Song :=
  if 0 < queue.length then queue.drop 1 else queue

/-- `skipSong` handler: identical body to `songEnded`. -/
def skipSong (queue : List Song) : List Song :=
  if 0 < queue.length then queue.drop 1 else queue

/-- The server's room registry `rooms`, embedded as an association list from
room id to queue (`none` lookup = the JavaScript `!rooms[roomId]` case). -/
def lookupRoom : List (String × List Song) → String → Option (List Song)
  | [], _ => none
  | (rid, q) :: rest, r => if rid = r then some q else lookupRoom rest r

/-- `joinRoom` handler: lazily create the room as `[]` when absent, then
emit the room's current queue to the joining socket.  Returns the updated
registry and the snapshot delivered to the participant. -/
def joinRoom (rooms : List (String × List Song)) (rid : String) :
    List (String × List Song) × List Song :=
  match lookupRoom rooms rid with
  | some q => (rooms, q)
  | none => ((rid, []) :: rooms, [])

/-- For comparison with `pinSong`: the pin operation as the claim words it,
where an absent id is a distinguishable `EntryNotFound` failure rather than
a silent no-op. -/
def pinEntryClaimed (queue : List Song) (u : Nat) : Except String (List Song) :=
  match findIndex (fun s => s.uuid == u) queue with
  | none => Except.error "EntryNotFound"
  | some i =>
    if 1 < i then
      Except.ok ((queue.eraseIdx i).take 1 ++ (queue.get? i).toList
        ++ (queue.eraseIdx i).drop 1)
    else Except.ok queue

/-- Concrete songs used for counterexamples and witnesses. -/
def sA : Song := ⟨"vidA", "Song A", "artist", "thumb", "3:00", 1⟩

def sB : Song := ⟨"vidB", "Song B", "artist", "thumb", "3:10", 2⟩

def sC : Song := ⟨"vidC", "Song C", "artist", "thumb", "3:20", 3⟩

def sX : Song := ⟨"vidX", "Song X", "artist", "thumb", "2:50", 99⟩

/-- A queue document of the Firestore client variant: the Firestore document
id plus payload and the numeric `order` position key.  Keys are embedded as
exact rationals: every number the code produces here (small integers,
`x + 0.5`, `x + 1`) is exactly representable as a JavaScript double, so ℚ is
a faithful carrier at these magnitudes. -/
structure QDoc where
  docId : String
  videoId : String
  title : String
  order : ℚ
deriving DecidableEq, Repr

/-- A document without its position key (used to state that renormalization
changes nothing but the keys). -/
def stripOrder (d : QDoc) : String × String × String :=
  (d.docId, d.videoId, d.title)

/-- Comparison used by the Firestore query `orderBy('order', 'asc')`. -/
def ordLE (a b : QDoc) : Prop := a.order ≤ b.order

instance : DecidableRel ordLE :=
  fun a b => inferInstanceAs (Decidable (a.order ≤ b.order))

instance : IsTotal QDoc ordLE := ⟨fun a b => le_total a.order b.order⟩

instance : IsTrans QDoc ordLE := ⟨fun _ _ _ h1 h2 => le_trans h1 h2⟩

/-- The snapshot delivered by `getDocs(query(queueColRef, orderBy('order', 'asc')))`:
the room's documents sorted ascending by key (stable, as Firestore's
tie-break by document id keeps equal keys in a fixed order). -/
def sortByOrder (docs : List QDoc) : List QDoc :=
  List.insertionSort ordLE docs

/-- The body of `normalizeQueue`'s batch:
`docs.forEach((d, idx) => batch.update(d.ref, { order: idx }))`,
renumbering from `k` upward. -/
def renumberFrom (k : Nat) : List QDoc → List QDoc
  | [] => []
  | d :: rest => { d with order := (k : ℚ) } :: renumberFrom (k + 1) rest

/-- `normalizeQueue`: read the snapshot sorted by `order` and rewrite each
document's key to its index in one batch commit. -/
def normalizeQueue (docs : List QDoc) : List QDoc :=
  renumberFrom 0 (sortByOrder docs)

/-- `addToQueue`'s `lastOrder`:
`items.length === 0 ? -1 : items[items.length - 1].order` (the `?? idx`
fallback for a missing field never fires in this embedding, where every
document carries a key). -/
def lastOrder : List QDoc → ℚ
  | [] => -1
  | [d] => d.order
  | _ :: rest => lastOrder rest

/-- `addToQueue`'s key assignment for the new document:
`isTop && items.length > 0 ? items[0].order + 0.5 : lastOrder + 1`,
computed over the ascending snapshot `items`. -/
def newOrder (items : List QDoc) (isTop : Bool) : ℚ :=
  match items, isTop with
  | first :: _, true => first.order + 1 / 2
  | _, _ => lastOrder items + 1

/-- Concrete queue documents for counterexamples and witnesses. -/
def qd0 : QDoc := ⟨"doc0", "vid0", "Now Playing", 0⟩

def qd1 : QDoc := ⟨"doc1", "vid1", "Second", 1⟩

def qdFrac : QDoc := ⟨"doc2", "vid2", "Second Frac", 3 / 10⟩

/-- An upstream AI provider response, reduced to what the retry logic
inspects: the HTTP status and the unknown-parameter name the 400 body names
(`getUnknownParamName`; `none` models an empty or unparsable `error.param`). -/
structure AiResp where
  status : Nat
  unknownParam : Option String
deriving DecidableEq, Repr

/-- `stripParam`: remove an offending request parameter (payloads are
embedded as their lists of distinct parameter names). -/
def stripParam (payload : List String) (name : String) : List String :=
  payload.filter (fun p => p ≠ name)

/-- `out.status >= 200 && out.status < 300`. -/
def is2xx (r : AiResp) : Bool :=
  decide (200 ≤ r.status) && decide (r.status < 300)

/-- Everything `callAiOnceWithOptionalRetry` returns or mutates: the final
response, the payload last used, the process-wide `AI_UNSUPPORTED_PARAMS`
set after the call, and the number of upstream calls made. -/
structure RetryResult where
  out : AiResp
  payloadUsed : List String
  unsupported : List String
  calls : Nat
deriving DecidableEq, Repr

/-- `callAiOnceWithOptionalRetry`, unrolled: a two-iteration loop in which a
400 response naming an unknown parameter records it and retries with it
stripped, followed — when both iterations strip-and-continue — by one more
unconditional upstream call after the loop.  `provider n p` is the upstream
response to the `n`-th call with payload `p`. -/
def callAiOnceWithOptionalRetry (provider : Nat → List String → AiResp)
    (initialPayload : List String) (unsupported0 : List String) : RetryResult :=
  let r0 := provider 0 initialPayload
  if is2xx r0 then ⟨r0, initialPayload, unsupported0, 1⟩
  else
    match r0.status, r0.unknownParam with
    | 400, some u0 =>
      let unsupported1 := u0 :: unsupported0
      let p1 := stripParam initialPayload u0
      let r1 := provider 1 p1
      if is2xx r1 then ⟨r1, p1, unsupported1, 2⟩
      else
        match r1.status, r1.unknownParam with
        | 400, some u1 =>
          let unsupported2 := u1 :: unsupported1
          let p2 := stripParam p1 u1
          ⟨provider 2 p2, p2, unsupported2, 3⟩
        | _, _ => ⟨r1, p1, unsupported1, 2⟩
    | _, _ => ⟨r0, initialPayload, unsupported0, 1⟩

/-- The Netlify variant of the same retry (`exports.handler`): one call,
and one single retry when the first response is a 400 naming an unknown
parameter.  Returns the final response, payload used and call count. -/
def netlifyAiCall (provider : Nat → List String → AiResp)
    (payload : List String) : AiResp × List String × Nat :=
  let out := provider 0 payload
  if out.status = 400 then
    match out.unknownParam with
    | some u =>
      let p1 := stripParam payload u
      (provider 1 p1, p1, 2)
    | none => (out, payload, 1)
  else (out, payload, 1)

/-- A provider that rejects every call with HTTP 400 naming a (fresh)
unknown parameter — the failing scenario for the retry bound. -/
def alwaysRejectingProvider : Nat → List String → AiResp :=
  fun n _ =>
    if n = 0 then ⟨400, some "reasoning"⟩
    else if n = 1 then ⟨400, some "response_format"⟩
    else ⟨400, some "temperature"⟩

/-- The payload `buildPayload` assembles, reduced to its parameter names. -/
def initialAiPayload : List String :=
  ["model", "messages", "reasoning", "temperature", "top_p",
   "presence_penalty", "frequency_penalty", "response_format"]

lemma findIndex_eq_some {p : Song → Bool} :
    ∀ {q : List Song} {i : Nat}, findIndex p q = some i →
      ∃ e, q.get? i = some e ∧ p e = true := by
  intro q
  induction q with
  | nil => intro i h; simp [findIndex] at h
  | cons s rest ih =>
    intro i h
    by_cases hp : p s
    · simp [findIndex, hp] at h
      exact h ▸ ⟨s, rfl, hp⟩
    · simp [findIndex, hp] at h
      obtain ⟨j, hj, hji⟩ := h
      obtain ⟨e, he, hpe⟩ := ih hj
      exact ⟨e, by rw [← hji]; simpa using he, hpe⟩

lemma eraseIdx_head_of_pos (q : List Song) (i : Nat) (h : 1 ≤ i) :
    (q.eraseIdx i).head? = q.head? := by
  cases q with
  | nil => simp [List.eraseIdx]
  | cons a t =>
    cases i with
    | zero => omega
    | succ j => simp [List.eraseIdx]

lemma pinSong_fst_head (q : List Song) (u : Nat) :
    (pinSong q u).1.head? = q.head? := by
  rcases hfi : findIndex (fun s => s.uuid == u) q with _ | i
  · simp [pinSong, hfi]
  · by_cases h1 : 1 < i
    · cases q with
      | nil => simp [findIndex] at hfi
      | cons h0 t =>
        obtain ⟨j, rfl⟩ : ∃ j, i = j + 2 := ⟨i - 2, by omega⟩
        simp [pinSong, hfi, List.eraseIdx, show 1 < j + 2 by omega]
    · simp [pinSong, hfi, h1]

lemma reorderQueue_fst_head_uuid (q p : List Song) :
    ((reorderQueue q p).1.head?).map Song.uuid = (q.head?).map Song.uuid := by
  cases q with
  | nil => cases p <;> simp [reorderQueue]
  | cons q0 qt =>
    cases p with
    | nil => simp [reorderQueue]
    | cons p0 pt =>
      by_cases h : q0.uuid = p0.uuid
      · simp [reorderQueue, h]
      · simp [reorderQueue, h]

lemma removeSong_head_of_ne (q : List Song) (u : Nat) (h0 : Song)
    (hh : q.head? = some h0) (hne : u ≠ h0.uuid) :
    (removeSong q u).head? = q.head? := by
  cases q with
  | nil => simp at hh
  | cons a t =>
    have ha : a = h0 := by simpa using hh
    subst ha
    simp [removeSong, List.filter_cons, show (a.uuid != u) = true by
      simpa using fun hc => hne hc.symm]

lemma removeSong_head_uuid_ne (q : List Song) (h0 : Song) :
    ((removeSong q h0.uuid).head?).map Song.uuid ≠ some h0.uuid := by
  cases hq : removeSong q h0.uuid with
  | nil => simp
  | cons x rest =>
    have hx : x ∈ q.filter (fun s => s.uuid != h0.uuid) := by
      rw [show q.filter (fun s => s.uuid != h0.uuid) = removeSong q h0.uuid from rfl, hq]
      exact List.mem_cons_self x rest
    have hxu : x.uuid ≠ h0.uuid := by simpa using (List.mem_filter.1 hx).2
    simpa using hxu

lemma renumberFrom_map_strip : ∀ (l : List QDoc) (k : Nat),
    (renumberFrom k l).map stripOrder = l.map stripOrder := by
  intro l
  induction l with
  | nil => intro k; rfl
  | cons d t ih => intro k; simp [renumberFrom, stripOrder, ih (k + 1)]

lemma renumberFrom_length : ∀ (l : List QDoc) (k : Nat),
    (renumberFrom k l).length = l.length := by
  intro l
  induction l with
  | nil => intro k; rfl
  | cons d t ih => intro k; simp [renumberFrom, ih (k + 1)]

lemma renumberFrom_order_head (l : List QDoc) (k : Nat) :
    ((renumberFrom k l).map QDoc.order).head? = l.head?.map (fun _ => (k : ℚ)) := by
  cases l <;> simp [renumberFrom]

lemma renumberFrom_chain : ∀ (l : List QDoc) (k : Nat),
    List.Chain' (fun a b => b = a + 1) ((renumberFrom k l).map QDoc.order) := by
  intro l
  induction l with
  | nil => intro k; simp [renumberFrom]
  | cons d t ih =>
    intro k
    rw [renumberFrom, List.map_cons, List.chain'_cons']
    refine ⟨?_, ih (k + 1)⟩
    intro b hb
    rw [renumberFrom_order_head] at hb
    cases ht : t.head? with
    | none => rw [ht] at hb; simp at hb
    | some x =>
      rw [ht] at hb
      simp at hb
      subst hb
      push_cast
      ring

lemma lastOrder_spec : ∀ (l : List QDoc), l.Pairwise ordLE → l ≠ [] →
    ∃ m, m ∈ l ∧ lastOrder l = m.order ∧ ∀ d, d ∈ l → d.order ≤ m.order := by
  intro l
  induction l with
  | nil => intro _ h; exact absurd rfl h
  | cons a t ih =>
    intro hp _
    rcases List.pairwise_cons.1 hp with ⟨ha, ht⟩
    cases t with
    | nil =>
      refine ⟨a, by simp, rfl, ?_⟩
      intro d hd
      simp at hd
      subst hd
      exact le_refl _
    | cons b t2 =>
      obtain ⟨m, hm, hlo, hmax⟩ := ih ht (by simp)
      refine ⟨m, List.mem_cons_of_mem a hm, ?_, ?_⟩
      · simpa [lastOrder] using hlo
      · intro d hd
        rcases List.mem_cons.1 hd with rfl | hd2
        · exact ha m hm
        · exact hmax d hd2

lemma newOrder_false (items : List QDoc) :
    newOrder items false = lastOrder items + 1 := by
  cases items <;> rfl

lemma newOrder_true_cons (first : QDoc) (rest : List QDoc) :
    newOrder (first :: rest) true = first.order + 1 / 2 := rfl

/-- C3: advance (`songEnded` = `skipSong`) is a no-op on the empty queue and
removes exactly the then-current head otherwise, hence at most one entry per
call and never an error or a negative length under duplicate delivery. -/
theorem c3_advance_idempotent (q : List Song) :
    songEnded ([] : List Song) = []
    ∧ skipSong q = songEnded q
    ∧ songEnded q = q.tail
    ∧ (songEnded q).length + 1 ≤ q.length + 1
    ∧ q.length ≤ (songEnded q).length + 1 := by
  refine ⟨rfl, rfl, ?_, ?_, ?_⟩ <;> cases q <;> simp [songEnded]

/-- C4: `addSong` with `insertAfterHead` (`isTop`) on a non-empty queue puts
the new item at index 1, directly after the head; in every other case it is
appended at the end.  In particular `[A] ↦ [A, B]` and
`[A, C, D] ↦ [A, B, C, D]`. -/
theorem c4_insert_after_head (q : List Song) (item a b c d : Song) :
    addSong q item false = q ++ [item]
    ∧ (addSong q item true = match q with
        | [] => [item]
        | h :: t => h :: item :: t)
    ∧ addSong [a] b true = [a, b]
    ∧ addSong [a, c, d] b true = [a, b, c, d] := by
  refine ⟨by simp [addSong], ?_, by simp [addSong], by simp [addSong]⟩
  cases q <;> simp [addSong]

/-- C1 counterexample: `removeSong` with the head's own uuid does remove the
head — on queue `[sA, sB]`, removing `sA.uuid` leaves head `sB`, so a
non-advance operation displaced the head, contrary to the claim. -/
theorem c1_counterexample :
    (removeSong [sA, sB] sA.uuid).head? ≠ ([sA, sB] : List Song).head? := by
  decide

/-- C1 amended: on a non-empty queue, pin never displaces the head,
an accepted or rejected reorder preserves the head's identity, and
`removeSong` preserves the head for every non-head uuid; but `removeSong`
with the head's own uuid removes it (the new head, if any, carries a
different uuid). -/
theorem c1_amended_head_preservation (q : List Song) (u : Nat) (p : List Song)
    (_hq : q ≠ []) :
    (pinSong q u).1.head? = q.head?
    ∧ ((reorderQueue q p).1.head?).map Song.uuid = (q.head?).map Song.uuid
    ∧ (∀ h0, q.head? = some h0 → u ≠ h0.uuid → (removeSong q u).head? = q.head?)
    ∧ (∀ h0, q.head? = some h0 →
        ((removeSong q h0.uuid).head?).map Song.uuid ≠ some h0.uuid) := by
  refine ⟨pinSong_fst_head q u, reorderQueue_fst_head_uuid q p, ?_, ?_⟩
  · intro h0 hh hne
    exact removeSong_head_of_ne q u h0 hh hne
  · intro h0 _
    exact removeSong_head_uuid_ne q h0

/-- C1 witness: the amended head-preservation facts evaluated on the
concrete queue `[sA, sB]`. -/
theorem c1_witness :
    (pinSong [sA, sB] 2).1.head? = ([sA, sB] : List Song).head?
    ∧ ((reorderQueue [sA, sB] [sA, sX]).1.head?).map Song.uuid
        = (([sA, sB] : List Song).head?).map Song.uuid
    ∧ (removeSong [sA, sB] 2).head? = ([sA, sB] : List Song).head?
    ∧ ((removeSong [sA, sB] sA.uuid).head?).map Song.uuid ≠ some sA.uuid := by
  obtain ⟨h1, h2, h3, h4⟩ :=
    c1_amended_head_preservation [sA, sB] 2 [sA, sX] (by decide)
  exact ⟨h1, h2, h3 sA rfl (by decide), h4 sA rfl⟩

/-- C2 counterexample: on rejection (`[sA]` vs proposal `[sB]`, heads do not
match) the handler leaves the queue alone but emits nothing at all — the
store's current sequence is NOT redelivered to the proposer, contrary to the
claim. -/
theorem c2_counterexample :
    reorderQueue [sA] [sB] = ([sA], none)
    ∧ (reorderQueue [sA] [sB]).2 ≠ some [sA] := by
  exact ⟨rfl, by decide⟩

/-- C2 amended: the proposal is installed (and broadcast) exactly when both
the stored queue and the proposal are non-empty and their heads carry the
same uuid; otherwise the stored entries are unchanged and nothing is emitted
(the proposal is silently dropped; no redelivery of the current sequence). -/
theorem c2_amended_reorder_characterization (q p : List Song) :
    ((reorderQueue q p).1 = p ∧ (reorderQueue q p).2 = some p
        ∧ q ≠ [] ∧ p ≠ []
        ∧ (q.head?).map Song.uuid = (p.head?).map Song.uuid)
    ∨ ((reorderQueue q p).1 = q ∧ (reorderQueue q p).2 = none
        ∧ ¬(q ≠ [] ∧ p ≠ []
            ∧ (q.head?).map Song.uuid = (p.head?).map Song.uuid)) := by
  cases q with
  | nil => right; cases p <;> simp [reorderQueue]
  | cons q0 qt =>
    cases p with
    | nil => right; simp [reorderQueue]
    | cons p0 pt =>
      by_cases h : q0.uuid = p0.uuid
      · left; simp [reorderQueue, h]
      · right; simp [reorderQueue, h]

/-- C5 counterexample: pinning an absent uuid is a silent no-op — the result
is literally the same no-failure value as pinning the head itself, while the
claim (modelled by `pinEntryClaimed`) demands an `EntryNotFound` failure. -/
theorem c5_counterexample :
    pinSong [sA] 99 = ([sA], false)
    ∧ pinSong [sA] sA.uuid = ([sA], false)
    ∧ pinEntryClaimed [sA] 99 = Except.error "EntryNotFound" := by
  exact ⟨rfl, rfl, rfl⟩

/-- C5 amended: `pinSong` moves the named entry to index 1 exactly when its
current index is ≥ 2 (then it broadcasts); ids at index 0 or 1 leave the
sequence unchanged, and an absent id is likewise a silent no-op — no
`EntryNotFound` failure exists in the code. -/
theorem c5_amended_pin_characterization (q : List Song) (u : Nat) :
    (findIndex (fun s => s.uuid == u) q = none → pinSong q u = (q, false))
    ∧ (∀ i, findIndex (fun s => s.uuid == u) q = some i → i ≤ 1 →
        pinSong q u = (q, false))
    ∧ (∀ i, findIndex (fun s => s.uuid == u) q = some i → 2 ≤ i →
        ∃ a e rest, q.head? = some a ∧ q.get? i = some e ∧ e.uuid = u
          ∧ pinSong q u = (a :: e :: rest, true)
          ∧ a :: rest = q.eraseIdx i) := by
  refine ⟨?_, ?_, ?_⟩
  · intro h; simp [pinSong, h]
  · intro i h hle
    simp [pinSong, h, show ¬ 1 < i by omega]
  · intro i h h2
    obtain ⟨e, he, hpe⟩ := findIndex_eq_some h
    cases q with
    | nil => simp at he
    | cons h0 t =>
      obtain ⟨j, rfl⟩ : ∃ j, i = j + 2 := ⟨i - 2, by omega⟩
      have he2 : t[j + 1]? = some e := by
        simpa [List.get?_eq_getElem?] using he
      refine ⟨h0, e, t.eraseIdx (j + 1), rfl, he, by simpa using hpe, ?_, by
        simp [List.eraseIdx]⟩
      simp [pinSong, h, show 1 < j + 2 by omega, he2, List.eraseIdx]

/-- C5 witness: pinning `sC` (index 2) in `[sA, sB, sC]` moves it to
index 1 behind the unchanged head. -/
theorem c5_witness :
    ∃ a e rest, ([sA, sB, sC] : List Song).head? = some a
      ∧ ([sA, sB, sC] : List Song).get? 2 = some e ∧ e.uuid = 3
      ∧ pinSong [sA, sB, sC] 3 = (a :: e :: rest, true)
      ∧ a :: rest = ([sA, sB, sC] : List Song).eraseIdx 2 :=
  (c5_amended_pin_characterization [sA, sB, sC] 3).2.2 2 (by decide) (by decide)

/-- C8: joining delivers the room's current entry sequence as the immediate
snapshot; an absent room is first created empty (lazily, idempotently,
leaving existing rooms untouched) and the joiner receives `[]`; the
delivered snapshot always equals the registry's stored entries after the
join. -/
theorem c8_join_snapshot (rooms : List (String × List Song)) (rid : String) :
    (∀ q, lookupRoom rooms rid = some q → joinRoom rooms rid = (rooms, q))
    ∧ (lookupRoom rooms rid = none →
        joinRoom rooms rid = ((rid, []) :: rooms, [])
        ∧ lookupRoom (joinRoom rooms rid).1 rid = some [])
    ∧ (joinRoom (joinRoom rooms rid).1 rid).1 = (joinRoom rooms rid).1
    ∧ some (joinRoom rooms rid).2 = lookupRoom (joinRoom rooms rid).1 rid := by
  rcases hl : lookupRoom rooms rid with _ | q
  · refine ⟨by simp [hl], fun _ => ⟨by simp [joinRoom, hl], ?_⟩, ?_, ?_⟩
    · simp [joinRoom, hl, lookupRoom]
    · simp [joinRoom, hl, lookupRoom]
    · simp [joinRoom, hl, lookupRoom]
  · refine ⟨?_, by simp [hl], ?_, ?_⟩
    · intro q2 hq2
      obtain rfl : q = q2 := Option.some.inj hq2
      simp [joinRoom, hl]
    · simp [joinRoom, hl]
    · simp [joinRoom, hl]

/-- C8 witness: joining room `"r1"` holding `[sA, sB]` leaves the registry
unchanged and immediately delivers `[sA, sB]`. -/
theorem c8_witness :
    joinRoom [("r1", [sA, sB])] "r1" = ([("r1", [sA, sB])], [sA, sB]) :=
  (c8_join_snapshot [("r1", [sA, sB])] "r1").1 [sA, sB] (by decide)

/-- C10: an accepted reorder proposal is installed verbatim — whenever the
proposal's head carries the current head's uuid the entries become exactly
the client-supplied sequence; concretely an accepted proposal can introduce
an entry never queued in the room (`sX`) and drop a previously queued one
(`sB`). -/
theorem c10_verbatim_install :
    (∀ (a p0 : Song) (qt pt : List Song), a.uuid = p0.uuid →
        (reorderQueue (a :: qt) (p0 :: pt)).1 = p0 :: pt)
    ∧ (∃ q p : List Song, (reorderQueue q p).2 = some p
        ∧ (∃ e, e ∈ p ∧ e ∉ q)
        ∧ (∃ e, e ∈ q ∧ e ∉ (reorderQueue q p).1)) := by
  constructor
  · intro a p0 qt pt h
    simp [reorderQueue, h]
  · exact ⟨[sA, sB], [sA, sX], by decide,
      ⟨sX, by decide, by decide⟩, ⟨sB, by decide, by decide⟩⟩

/-- C10 witness: a head-matching proposal is installed verbatim on a
concrete queue. -/
theorem c10_witness :
    (reorderQueue [sA] [sA, sX]).1 = [sA, sX] :=
  c10_verbatim_install.1 sA sA [] [sX] rfl

/-- C6: renormalization reads the sequence ascending by pre-existing keys (a
stable sort that permutes nothing away), rewrites only the keys, keeps the
entries and their relative order exactly, assigns the consecutive values
`0, 1, 2, …` (head at successive key steps of exactly `+1`), and leaves
`entries[0]` at key `0` whenever the queue is non-empty. -/
theorem c6_normalize_preserves_order (docs : List QDoc) :
    (sortByOrder docs).Pairwise ordLE
    ∧ List.Perm (sortByOrder docs) docs
    ∧ (normalizeQueue docs).map stripOrder = (sortByOrder docs).map stripOrder
    ∧ (normalizeQueue docs).length = docs.length
    ∧ List.Chain' (fun a b => b = a + 1) ((normalizeQueue docs).map QDoc.order)
    ∧ ((normalizeQueue docs).map QDoc.order).head?
        = if docs.length = 0 then none else some 0 := by
  have hperm : List.Perm (sortByOrder docs) docs :=
    List.perm_insertionSort ordLE docs
  refine ⟨List.sorted_insertionSort ordLE docs, hperm,
    renumberFrom_map_strip _ 0, ?_, renumberFrom_chain _ 0, ?_⟩
  · rw [normalizeQueue, renumberFrom_length]
    exact hperm.length_eq
  · rw [normalizeQueue, renumberFrom_order_head]
    cases hs : sortByOrder docs with
    | nil =>
      have hlen : docs.length = 0 := by
        have := hperm.length_eq
        rw [hs] at this
        simpa using this.symm
      simp [hlen]
    | cons a t =>
      have hlen : docs.length ≠ 0 := by
        have := hperm.length_eq
        rw [hs] at this
        simp at this
        omega
      simp [hlen]

/-- C7 counterexample: on the (ascending) queue with head key `0` and second
key `3/10`, the top insert gets key `0 + 0.5 = 1/2`, which is neither the
midpoint of the two existing keys (`3/20`) nor any value below the second
entry's key — the new entry does not even land at index 1, refuting the
claimed key-assignment rule. -/
theorem c7_counterexample :
    newOrder [qd0, qdFrac] true = 1 / 2
    ∧ ¬ newOrder [qd0, qdFrac] true < qdFrac.order
    ∧ newOrder [qd0, qdFrac] true ≠ (qd0.order + qdFrac.order) / 2 := by
  refine ⟨?_, ?_, ?_⟩ <;> rw [newOrder_true_cons] <;> norm_num [qd0, qdFrac]

/-- C7 amended: an ordinary append assigns the maximum existing key plus one
(so the appended entry sorts strictly last), while a top insert on a
non-empty queue assigns the head's key plus `0.5` — a value strictly between
the head's and the second entry's keys whenever those keys are at least one
apart (as they are after renormalization), but not the claimed midpoint in
general. -/
theorem c7_amended_keys (items : List QDoc) (hs : items.Pairwise ordLE) :
    (∀ d, d ∈ items → d.order < newOrder items false)
    ∧ (items ≠ [] → ∃ m, m ∈ items ∧ (∀ d, d ∈ items → d.order ≤ m.order)
        ∧ newOrder items false = m.order + 1)
    ∧ (∀ first rest, items = first :: rest →
        newOrder items true = first.order + 1 / 2)
    ∧ (∀ first second rest, items = first :: second :: rest →
        first.order + 1 ≤ second.order →
        first.order < newOrder items true ∧ newOrder items true < second.order) := by
  refine ⟨?_, ?_, ?_, ?_⟩
  · intro d hd
    have hne : items ≠ [] := by rintro rfl; simp at hd
    obtain ⟨m, _, hlo, hmax⟩ := lastOrder_spec items hs hne
    rw [newOrder_false, hlo]
    have := hmax d hd
    linarith
  · intro hne
    obtain ⟨m, hm, hlo, hmax⟩ := lastOrder_spec items hs hne
    exact ⟨m, hm, hmax, by rw [newOrder_false, hlo]⟩
  · rintro first rest rfl
    exact newOrder_true_cons first rest
  · rintro first second rest rfl hgap
    rw [newOrder_true_cons]
    constructor <;> linarith

/-- C7 witness: on the renormalized queue `[qd0, qd1]` (keys `0` and `1`)
the top insert's key lies strictly between the head's and the second
entry's keys. -/
theorem c7_witness :
    qd0.order < newOrder [qd0, qd1] true ∧ newOrder [qd0, qd1] true < qd1.order :=
  (c7_amended_keys [qd0, qd1]
      (by norm_num [List.pairwise_cons, ordLE, qd0, qd1])).2.2.2
    qd0 qd1 [] rfl (by norm_num [qd0, qd1])

/-- C9: against a provider that rejects every call with HTTP 400 naming an
unknown parameter, the server's `callAiOnceWithOptionalRetry` makes a THIRD
upstream call after its two loop iterations (learning two parameters on the
way), exceeding the at-most-two-calls bound its own comment ("At most 1
retry") states; the Netlify variant of the same logic stops at two calls. -/
theorem c9_third_upstream_call :
    (callAiOnceWithOptionalRetry alwaysRejectingProvider initialAiPayload []).calls = 3
    ∧ (callAiOnceWithOptionalRetry alwaysRejectingProvider initialAiPayload []).unsupported
        = ["response_format", "reasoning"]
    ∧ (netlifyAiCall alwaysRejectingProvider initialAiPayload).2.2 = 2 := by
  refine ⟨rfl, rfl, rfl⟩

end Karaoke
